import Mathlib

/-!
# Verification of the Tally reconciliation-and-release backend

Shallow embedding of the core data model and operations of the
`tally-with-claud1` repository:

* the PostgreSQL schema and `bill_status` view (`database/schema.sql`);
* the release middleware chain (`middleware/businessRules.js`:
  `validateRelease`, `validateGatepassId`, `enforceUniqueRelease`) and the
  `POST /release/self` / `POST /release/transporter` route handlers
  (`routes/dispatch.js`);
* the auto-mapping engine (`TallyODBCService.autoMapReceipts`, identical
  in `TallyXMLETL.autoMapReceipts`);
* the ETL sync pipeline (`TallyETL.syncBills` / `syncReceipts` / `runETL`,
  `TallyXMLETL.parseVouchersFromXML`);
* the cashier-session close path (`calculate_expected_cash`,
  `validateCashVariance`, `POST /session/:session_id/close`).

Monetary amounts (SQL `DECIMAL(15,2)`) are modelled as exact integers,
dates and timestamps as integers.  HTTP plumbing is out of scope: requests
arrive as validated commands carrying their attributes (bill number,
gatepass id, credentials), matching the spec's component boundary.
-/

/-- A row of a Tally-synced store: primary key, payload columns, and the
`last_sync_ts` column refreshed by every upsert. -/
structure Entry (ρ : Type) where
  key : String
  data : ρ
  ts : Nat
deriving DecidableEq, Repr

/-- Payload columns of the `bill` table (besides `bill_no` and sync ts). -/
structure BillData where
  billDate : Int
  partyName : String
  amount : Int
deriving DecidableEq, Repr

/-- Payload columns of the `receipt` table.  `billRef` is the nullable
`bill_reference` column, the only field mutated after ingestion. -/
structure ReceiptData where
  receiptDate : Int
  partyName : String
  amount : Int
  mode : String
  refText : String
  billRef : Option String
deriving DecidableEq, Repr

/-- A row of `release_self` or `release_transporter` (the columns shared by
both variants that the business rules read). -/
structure ReleaseRec where
  billNo : String
  gatepassId : String
  approvedBy : Option String
deriving DecidableEq, Repr

/-- The relational store:  `bill`, `receipt`, the two release tables, and
the active managers' PINs (`users` rows with role MANAGER, bcrypt
comparison abstracted to equality). -/
structure DB where
  bills : List (Entry BillData)
  receipts : List (Entry ReceiptData)
  releaseSelf : List ReleaseRec
  releaseTransporter : List ReleaseRec
  managers : List (String × String)
deriving DecidableEq, Repr

/-- The lookup `SELECT ... FROM bill WHERE bill_no = $1`. -/
def findBill (db : DB) (billNo : String) : Option (Entry BillData) :=
  db.bills.find? (fun b => b.key = billNo)

/-- The `receipt_total` column of the `bill_status` view: sum of `amount` over the
receipts whose `bill_reference` equals this bill number. -/
def receiptTotal (db : DB) (billNo : String) : Int :=
  ((db.receipts.filter (fun r => r.data.billRef = some billNo)).map
    (fun r => r.data.amount)).sum

/-- The derived payment status values of the `bill_status` view. -/
inductive PayStatus
  | due
  | paid
  | partPaid
deriving DecidableEq, Repr

/-- The `CASE` expression of the `bill_status` view, in source order:
`receipt_total = 0 → DUE`, else `receipt_total ≥ amount → PAID`,
else `PART-PAID`. -/
def statusOf (amount total : Int) : PayStatus :=
  if total = 0 then .due else if total ≥ amount then .paid else .partPaid

/-- The `remaining_due` column of the `bill_status` view for a bill row. -/
def billRemainingDue (db : DB) (b : Entry BillData) : Int :=
  b.data.amount - receiptTotal db b.key

/-- A row of the `bill_status` view. -/
structure BillStatusRow where
  billNo : String
  billDate : Int
  partyName : String
  billAmount : Int
  receiptTotal : Int
  remainingDue : Int
  payStatus : PayStatus
deriving DecidableEq, Repr

/-- The `bill_status` view: one derived row per bill. -/
def billStatusView (db : DB) : List BillStatusRow :=
  db.bills.map (fun b =>
    { billNo := b.key
      billDate := b.data.billDate
      partyName := b.data.partyName
      billAmount := b.data.amount
      receiptTotal := receiptTotal db b.key
      remainingDue := b.data.amount - receiptTotal db b.key
      payStatus := statusOf b.data.amount (receiptTotal db b.key) })

/-- Whether `SELECT ... FROM release_self WHERE bill_no = $1 UNION ALL
SELECT ... FROM release_transporter WHERE bill_no = $1` is non-empty. -/
def hasRelease (db : DB) (billNo : String) : Bool :=
  db.releaseSelf.any (fun r => r.billNo = billNo) ||
  db.releaseTransporter.any (fun r => r.billNo = billNo)

/-- Whether `SELECT ... WHERE gatepass_id = $1` over both release tables is
non-empty (`validateGatepassId`). -/
def gatepassUsed (db : DB) (g : String) : Bool :=
  db.releaseSelf.any (fun r => r.gatepassId = g) ||
  db.releaseTransporter.any (fun r => r.gatepassId = g)

/-- A release command as received by the dispatch routes.  `managerPin` is
`none` when the request body carries no (or an empty) `manager_pin`;
`otpVerified` is the `otp_verified` flag. -/
structure ReleaseReq where
  billNo : String
  gatepassId : String
  managerPin : Option String
  otpVerified : Bool
deriving DecidableEq, Repr

/-- The rejection reasons of the release pipeline, in the order the checks
appear in the middleware chain and handler. -/
inductive RelError
  | billNotFound
  | alreadyReleased
  | approvalRequired
  | gatepassInUse
  | alreadyReleasedLocked
  | invalidManagerPin
deriving DecidableEq, Repr

/-- The un-locked middleware checks run before the transaction is opened:
`validateRelease` (bill exists; not already released; outstanding due needs
a PIN or the OTP flag) followed by `validateGatepassId`.  Returns
`req.billData.remaining_due` on success. -/
def releasePhase1 (db : DB) (req : ReleaseReq) : Except RelError Int :=
  match findBill db req.billNo with
  | none => .error .billNotFound
  | some b =>
    if hasRelease db req.billNo then .error .alreadyReleased
    else
      let rem := billRemainingDue db b
      if rem > 0 && req.managerPin.isNone && !req.otpVerified then
        .error .approvalRequired
      else if gatepassUsed db req.gatepassId then .error .gatepassInUse
      else .ok rem

/-- Manager-PIN lookup of the route handlers: scan active managers and
compare the supplied PIN against each stored PIN. -/
def findManager (db : DB) (pin : String) : Option String :=
  (db.managers.find? (fun m => m.2 = pin)).map (fun m => m.1)

/-- The credential block of the route handlers: with outstanding due, a
supplied manager PIN must match some manager (else `Invalid manager PIN`),
and absent a PIN the OTP flag must be set (else the approval-required
rejection).  Returns `approved_by_manager_id`. -/
def resolveApproval (db : DB) (rem : Int) (req : ReleaseReq) :
    Except RelError (Option String) :=
  if rem > 0 then
    match req.managerPin with
    | some pin =>
      match findManager db pin with
      | some mid => .ok (some mid)
      | none => .error .invalidManagerPin
    | none => if !req.otpVerified then .error .approvalRequired else .ok none
  else .ok none

/-- The two release variants. -/
inductive Variant
  | self
  | transporter
deriving DecidableEq, Repr

/-- The code executed inside the locked transaction opened by
`enforceUniqueRelease`: re-check that no release record exists for this
bill (and nothing else), then the route handler's credential block and the
`INSERT` into the variant's release table.  `rem` is the remaining due
captured by `validateRelease` before the lock. -/
def releaseLocked (v : Variant) (db : DB) (rem : Int) (req : ReleaseReq) :
    Except RelError DB :=
  if hasRelease db req.billNo then .error .alreadyReleasedLocked
  else
    match resolveApproval db rem req with
    | .error e => .error e
    | .ok approvedBy =>
      let row : ReleaseRec :=
        { billNo := req.billNo, gatepassId := req.gatepassId
          approvedBy := approvedBy }
      match v with
      | .self => .ok { db with releaseSelf := db.releaseSelf ++ [row] }
      | .transporter =>
        .ok { db with releaseTransporter := db.releaseTransporter ++ [row] }

/-- A full release attempt: the middleware chain and handler run in
sequence against one store state (no interleaving). -/
def releaseAttempt (v : Variant) (db : DB) (req : ReleaseReq) :
    Except RelError DB :=
  match releasePhase1 db req with
  | .error e => .error e
  | .ok rem => releaseLocked v db rem req

/-- Apply one release attempt: on rejection the transaction is rolled back
and the store is unchanged. -/
def applyAttempt (db : DB) (a : Variant × ReleaseReq) : DB :=
  match releaseAttempt a.1 db a.2 with
  | .ok db2 => db2
  | .error _ => db

/-- Apply a sequence of release attempts. -/
def applyAttempts (db : DB) (l : List (Variant × ReleaseReq)) : DB :=
  l.foldl applyAttempt db

/-- Number of release records for a bill, both variants combined. -/
def releaseCount (db : DB) (billNo : String) : Nat :=
  (db.releaseSelf.filter (fun r => r.billNo = billNo)).length +
  (db.releaseTransporter.filter (fun r => r.billNo = billNo)).length

/-- Number of release records carrying a given gatepass id, both variants
combined. -/
def gatepassCount (db : DB) (g : String) : Nat :=
  (db.releaseSelf.filter (fun r => r.gatepassId = g)).length +
  (db.releaseTransporter.filter (fun r => r.gatepassId = g)).length

/-! ## Auto-mapping engine (`TallyODBCService.autoMapReceipts`, identical in
`TallyXMLETL.autoMapReceipts`) -/

/-- The filter `WHERE bill_reference IS NULL OR bill_reference = ''`: the receipts the
engine considers unmapped. -/
def unmappedPred (r : Entry ReceiptData) : Bool :=
  r.data.billRef.isNone || r.data.billRef == some ""

/-- The order `ORDER BY receipt_date, receipt_id` (strict lexicographic order used by
the stable sort below). -/
def receiptLt (a b : Entry ReceiptData) : Bool :=
  decide (a.data.receiptDate < b.data.receiptDate ∨
    (a.data.receiptDate = b.data.receiptDate ∧ a.key < b.key))

/-- Stable insertion into an ascending list. -/
def insertAsc (lt : α → α → Bool) (x : α) : List α → List α
  | [] => [x]
  | y :: ys => if lt x y then x :: y :: ys else y :: insertAsc lt x ys

/-- Stable insertion sort (models the SQL `ORDER BY`). -/
def sortAsc (lt : α → α → Bool) (l : List α) : List α :=
  l.foldr (insertAsc lt) []

/-- The candidate query of the engine:
`WHERE party_name = $1 AND remaining_due > 0 AND remaining_due >= $2`
over the `bill_status` view. -/
def mapCandidates (db : DB) (party : String) (amt : Int) :
    List (Entry BillData) :=
  db.bills.filter (fun b =>
    b.data.partyName = party && billRemainingDue db b > 0 &&
      billRemainingDue db b ≥ amt)

/-- One comparison step of the minimum scan below. -/
def pickStep (best : Option (Entry BillData)) (b : Entry BillData) :
    Option (Entry BillData) :=
  match best with
  | none => some b
  | some c => if b.data.billDate < c.data.billDate then some b else best

/-- The selection `ORDER BY bill_date LIMIT 1`: the earliest-dated row of the candidate
list (first of the minimal ones in store order). -/
def pickOldest (l : List (Entry BillData)) : Option (Entry BillData) :=
  l.foldl pickStep none

/-- The single candidate the engine's `LIMIT 1` query returns. -/
def selectCandidate (db : DB) (party : String) (amt : Int) :
    Option (Entry BillData) :=
  pickOldest (mapCandidates db party amt)

/-- One pass of the loop body: look up the oldest eligible bill for this
receipt's party and amount against the current store; on a hit, set the
receipt's `bill_reference` (flag = a row was mapped). -/
def mapStep (db : DB) (r : Entry ReceiptData) : DB × Bool :=
  match selectCandidate db r.data.partyName r.data.amount with
  | some b =>
    ({ db with
        receipts := db.receipts.map (fun e =>
          if e.key = r.key then
            { e with data := { e.data with billRef := some b.key } }
          else e) },
      true)
  | none => (db, false)

/-- The engine `autoMapReceipts`: snapshot the unmapped receipts ordered by
`(receipt_date, receipt_id)`, then map each in turn against the live
store, counting successful links. -/
def autoMapReceipts (db : DB) : DB × Nat :=
  (sortAsc receiptLt (db.receipts.filter unmappedPred)).foldl
    (fun acc r =>
      let s := mapStep acc.1 r
      (s.1, acc.2 + (if s.2 then 1 else 0)))
    (db, 0)

/-! ## Ingestion pipeline (`TallyETL` / `TallyXMLETL`) -/

/-- One `INSERT ... ON CONFLICT (key) DO UPDATE` against a keyed store:
overwrite the payload and refresh `last_sync_ts` when the key exists,
append a fresh row otherwise. -/
def upsertEntry (store : List (Entry ρ)) (k : String) (p : ρ) (t : Nat) :
    List (Entry ρ) :=
  if store.any (fun e => e.key = k) then
    store.map (fun e => if e.key = k then ⟨k, p, t⟩ else e)
  else store ++ [⟨k, p, t⟩]

/-- The upsert loop of `syncBills` / `syncReceipts` over one fetched batch,
every row stamped with the cycle's sync timestamp. -/
def upsertAll (store : List (Entry ρ)) (rows : List (String × ρ)) (t : Nat) :
    List (Entry ρ) :=
  rows.foldl (fun s r => upsertEntry s r.1 r.2 t) store

/-- Model of `TallyETL.syncBills` on a batch of well-formed rows: upsert each and
return the synced count (one per fetched row). -/
def syncBills (db : DB) (rows : List (String × BillData)) (t : Nat) :
    DB × Nat :=
  ({ db with bills := upsertAll db.bills rows t }, rows.length)

/-- Model of `TallyETL.syncReceipts`, same upsert semantics on the receipt store. -/
def syncReceipts (db : DB) (rows : List (String × ReceiptData)) (t : Nat) :
    DB × Nat :=
  ({ db with receipts := upsertAll db.receipts rows t }, rows.length)

/-- Erase the `last_sync_ts` column (for comparing store contents up to
sync timestamps). -/
def stripTs (store : List (Entry ρ)) : List (Entry ρ) :=
  store.map (fun e => { e with ts := 0 })

/-- Keys of a keyed store, in row order. -/
def keysOf (store : List (Entry ρ)) : List String :=
  store.map (fun e => e.key)

/-- First row with the given key, if any. -/
def lookupEntry (store : List (Entry ρ)) (k : String) : Option (Entry ρ) :=
  store.find? (fun e => e.key = k)

/-- The payload the last batch row with key `k` carries, if any (the value
an upsert loop leaves for that key). -/
def lastRow : List (String × ρ) → String → Option ρ
  | [], _ => none
  | r :: rest, k =>
    match lastRow rest k with
    | some p => some p
    | none => if r.1 = k then some r.2 else none

/-- The store state one ETL pass leaves behind: sync bills, then sync
receipts (`runETL` before the auto-mapping step). -/
def syncCycle (db : DB) (brows : List (String × BillData))
    (rrows : List (String × ReceiptData)) (tb tr : Nat) : DB :=
  (syncReceipts (syncBills db brows tb).1 rrows tr).1

/-! ## XML voucher parsing (`TallyXMLETL.parseVouchersFromXML`) and the
ODBC bills phase on raw rows (`TallyETL.syncBills` against the `bill`
schema's NOT NULL columns) -/

/-- The four values `extractXMLValue` pulls out of one `<VOUCHER>` block;
a missing tag yields the empty string. -/
structure RawVoucher where
  voucherNumber : String
  date : String
  partyName : String
  amount : String
deriving DecidableEq, Repr

/-- The guard of the parse loop: `if (voucherNumber && date && partyName
&& amount)` — every extracted value non-empty. -/
def wellFormedVoucher (v : RawVoucher) : Bool :=
  !(v.voucherNumber == "") && !(v.date == "") && !(v.partyName == "") &&
    !(v.amount == "")

/-- Date normalization `formatTallyDate`: `YYYYMMDD → YYYY-MM-DD`; three `-`-separated parts
are reordered `DD-MM-YYYY → YYYY-MM-DD`; anything else falls back to the
current date. -/
def formatTallyDate (today : String) (d : String) : String :=
  if d.length = 8 then
    d.take 4 ++ "-" ++ (d.drop 4).take 2 ++ "-" ++ (d.drop 6).take 2
  else if d.contains '-' then
    match d.splitOn "-" with
    | [p0, p1, p2] => p2 ++ "-" ++ p1 ++ "-" ++ p0
    | _ => today
  else today

/-- Payload of a bill row as produced by the XML parse (the date stays in
its formatted string form). -/
structure XmlBillData where
  billDate : String
  partyName : String
  amount : Int
deriving DecidableEq, Repr

/-- Parsing `parseVouchersFromXML`: keep the vouchers with all four required values
present, in order; drop the rest (a local, silent per-record skip).  The
numeric cleanup `parseFloat(amount.replace(...)) || 0` is abstracted as the
parameter `pf`. -/
def parseVouchersFromXML (pf : String → Int) (today : String) :
    List RawVoucher → List (String × XmlBillData)
  | [] => []
  | v :: rest =>
    if wellFormedVoucher v then
      (v.voucherNumber,
        ⟨formatTallyDate today v.date, v.partyName, pf v.amount⟩) ::
        parseVouchersFromXML pf today rest
    else parseVouchersFromXML pf today rest

/-- Model of `TallyXMLETL.syncBills` after the fetch: upsert every parsed voucher. -/
def syncBillsXML (pf : String → Int) (today : String) (vs : List RawVoucher)
    (store : List (Entry XmlBillData)) (t : Nat) :
    List (Entry XmlBillData) × Nat :=
  let rows := parseVouchersFromXML pf today vs
  (upsertAll store rows t, rows.length)

/-- A raw ODBC result row for the bills query of `TallyETL.syncBills`;
each field may be missing (`null`). -/
structure OdbcBillRow where
  bill_no : Option String
  bill_date : Option Int
  party_name : Option String
  amount : Option Int
deriving DecidableEq, Repr

/-- The upsert loop of `TallyETL.syncBills` over raw ODBC rows, inside one
transaction: a row with any required column missing violates the `bill`
table's PRIMARY KEY / NOT NULL constraints, which throws and rolls the
whole phase back (no rows of the batch are committed) — the behaviour the
repository's own ETL test asserts (`syncBills` rejects on a `null`
`bill_no`). -/
def odbcUpsertLoop (t : Nat) :
    List OdbcBillRow → List (Entry BillData) → Nat →
      Except Unit (List (Entry BillData) × Nat)
  | [], store, n => .ok (store, n)
  | r :: rest, store, n =>
    match r.bill_no, r.bill_date, r.party_name, r.amount with
    | some bn, some bd, some pn, some amt =>
      odbcUpsertLoop t rest (upsertEntry store bn ⟨bd, pn, amt⟩ t) (n + 1)
    | _, _, _, _ => .error ()

/-- Model of `TallyETL.syncBills` on a raw ODBC batch.  On error the surrounding
transaction is rolled back, so the caller's store is unchanged. -/
def syncBillsODBC (rows : List OdbcBillRow) (store : List (Entry BillData))
    (t : Nat) : Except Unit (List (Entry BillData) × Nat) :=
  odbcUpsertLoop t rows store 0

/-! ## The full ETL cycle (`TallyETL.runETL`) -/

/-- The statistics object the spec's `runCycle()` contract names. -/
structure SyncStats where
  billsSynced : Nat
  receiptsSynced : Nat
  mappedCount : Nat
deriving DecidableEq, Repr

/-- Observable outcome of one `runETL()` call: the store it leaves behind,
the three counts it computes and logs, whether the cycle failed, and the
resolved value of the async function (`runETL` ends without a `return`
value, so this is always `none` — the counts are only logged). -/
structure EtlOutcome where
  db : DB
  billsSynced : Nat
  receiptsSynced : Nat
  mappedCount : Nat
  failed : Bool
  retValue : Option SyncStats
deriving DecidableEq, Repr

/-- Model of `TallyETL.runETL` on one cycle's fetched batches: skip everything when
the source connection fails; otherwise sync bills, sync receipts, then
auto-map, logging the three counts.  The function body has no `return`
statement with a value on any path. -/
def runETL (connected : Bool) (brows : List (String × BillData))
    (rrows : List (String × ReceiptData)) (db : DB) (t : Nat) : EtlOutcome :=
  if !connected then
    { db := db, billsSynced := 0, receiptsSynced := 0, mappedCount := 0
      failed := false, retValue := none }
  else
    let sb := syncBills db brows t
    let sr := syncReceipts sb.1 rrows t
    let am := autoMapReceipts sr.1
    { db := am.1, billsSynced := sb.2, receiptsSynced := sr.2
      mappedCount := am.2, failed := false, retValue := none }

/-! ## Cashier sessions (`calculate_expected_cash`, `validateCashVariance`
and the close handler) -/

/-- A `cashier_session` row (the columns the close path touches). -/
structure SessionRec where
  id : String
  cashierId : String
  startTs : Int
  endTs : Option Int
  startFloat : Int
  countedCash : Option Int
  expectedCash : Option Int
  variance : Option Int
  closedBy : Option String
  state : String
deriving DecidableEq, Repr

/-- A `payment_hint` row (the columns `calculate_expected_cash` reads). -/
structure PaymentHint where
  cashierId : String
  cashAmt : Int
  createdAt : Int
deriving DecidableEq, Repr

/-- A `petty_cash` row. -/
structure PettyCashRec where
  sessionId : String
  amount : Int
deriving DecidableEq, Repr

/-- A `till_adjustment` row; `adjType` is `ADD_TO_TILL` or
`REMOVE_FROM_TILL`. -/
structure TillAdjustment where
  sessionId : String
  adjType : String
  amount : Int
deriving DecidableEq, Repr

/-- The session-side store. -/
structure SessionDB where
  sessions : List SessionRec
  paymentHints : List PaymentHint
  pettyCash : List PettyCashRec
  tillAdjustments : List TillAdjustment
deriving DecidableEq, Repr

/-- The SQL function `calculate_expected_cash`.  `start_float` and the
cash-hint sum resolve cleanly (neither `payment_hint` nor
`cashier_session` has a `session_id` column, so the bare `session_id`
there is unambiguously the parameter).  The petty-cash and
till-adjustment statements, however, read `WHERE session_id = session_id`
against tables that DO have a `session_id` column while the PL/pgSQL
parameter is also named `session_id`: under stock PostgreSQL
(`plpgsql.variable_conflict = error`, the default) executing either
statement raises an ambiguous-column-reference error, aborting the
function; under the `use_variable`/`use_column` overrides the clause is a
tautology and the sums range over every row of `petty_cash` /
`till_adjustment`, whatever session they belong to.  `strict` selects the
default (raising) semantics; `strict = false` is the tautology
semantics. -/
def calculateExpectedCash (strict : Bool) (db : SessionDB) (s : SessionRec)
    (now : Int) : Except Unit Int :=
  let cashIn := ((db.paymentHints.filter (fun ph =>
    ph.cashierId = s.cashierId && s.startTs ≤ ph.createdAt &&
      ph.createdAt ≤ s.endTs.getD now)).map (fun ph => ph.cashAmt)).sum
  if strict then .error ()
  else
    let pettyOut := (db.pettyCash.map (fun p => p.amount)).sum
    let adjustments := (db.tillAdjustments.map (fun a =>
      if a.adjType = "ADD_TO_TILL" then a.amount else -a.amount)).sum
    .ok (s.startFloat + cashIn - pettyOut + adjustments)

/-- Modelled from the spec: expected cash as the claim states it —
opening float, plus the cash portions of this cashier's payment hints in
the session window, minus petty cash disbursed against THIS session, plus
this session's net till adjustments.  Kept separate from
`calculateExpectedCash` for comparison: no semantics of the source
function computes these per-session sums. -/
def specExpectedCash (db : SessionDB) (s : SessionRec) (now : Int) : Int :=
  let cashIn := ((db.paymentHints.filter (fun ph =>
    ph.cashierId = s.cashierId && s.startTs ≤ ph.createdAt &&
      ph.createdAt ≤ s.endTs.getD now)).map (fun ph => ph.cashAmt)).sum
  let pettyOut := ((db.pettyCash.filter (fun p => p.sessionId = s.id)).map
    (fun p => p.amount)).sum
  let adjustments := ((db.tillAdjustments.filter (fun a =>
    a.sessionId = s.id)).map (fun a =>
      if a.adjType = "ADD_TO_TILL" then a.amount else -a.amount)).sum
  s.startFloat + cashIn - pettyOut + adjustments

/-- What the close route hands back to the caller on success. -/
structure CloseResult where
  db : SessionDB
  session : SessionRec
  respVariance : Int
  respExpectedCash : Int
  requiresApproval : Bool
deriving DecidableEq, Repr

/-- Outcome of a close request: 404/400 from `validateSessionClose`
(missing or non-ACTIVE session), the 500 `Variance validation failed`
response from `validateCashVariance`'s catch block when
`calculate_expected_cash` raises, or a persisted close. -/
inductive CloseOutcome
  | notFound
  | serverError
  | closed (res : CloseResult)
deriving DecidableEq, Repr

/-- The session-close path (`validateCashVariance` followed by the
`POST /session/:session_id/close` handler), given a session that passed
`validateSessionClose`'s unreleased-paid-bills check.  If
`calculate_expected_cash` raises, `validateCashVariance` catches and
responds 500 — nothing is persisted.  Otherwise `validateCashVariance`
attaches expected cash and variance to the request only when `|variance|`
exceeds the threshold; the handler then persists `req.variance || 0` and
`req.expectedCash || 0` and always sets status CLOSED. -/
def closeSession (strict : Bool) (threshold : Int) (db : SessionDB)
    (sessionId : String) (countedCash : Int) (closedBy : String)
    (now : Int) : CloseOutcome :=
  match db.sessions.find? (fun s => s.id = sessionId) with
  | none => .notFound
  | some s =>
    if s.state = "ACTIVE" then
      match calculateExpectedCash strict db s now with
      | .error _ => .serverError
      | .ok expected =>
        let variance := countedCash - expected
        let approval := |variance| > threshold
        let pVar := if approval then variance else 0
        let pExp := if approval then expected else 0
        let s2 : SessionRec :=
          { s with
              endTs := some now, countedCash := some countedCash,
              expectedCash := some pExp, variance := some pVar,
              closedBy := some closedBy, state := "CLOSED" }
        .closed
          { db :=
              { db with
                  sessions := db.sessions.map (fun x =>
                    if x.id = sessionId then s2 else x) }
            session := s2, respVariance := pVar, respExpectedCash := pExp
            requiresApproval := approval }
    else .notFound

/-! ## Concrete stores and requests used by the scenario theorems -/

/-- The empty store. -/
def emptyDB : DB :=
  { bills := [], receipts := [], releaseSelf := [], releaseTransporter := []
    managers := [] }

/-- Status-derivation example store: three bills of amount 1000 with mapped
receipts totalling 1000, 400 and 0. -/
def c4db : DB :=
  { bills :=
      [⟨"BA", ⟨1, "P", 1000⟩, 0⟩, ⟨"BB", ⟨2, "P", 1000⟩, 0⟩,
        ⟨"BC", ⟨3, "P", 1000⟩, 0⟩]
    receipts :=
      [⟨"RA", ⟨5, "P", 1000, "CASH", "", some "BA"⟩, 0⟩,
        ⟨"RB", ⟨6, "P", 400, "CASH", "", some "BB"⟩, 0⟩]
    releaseSelf := [], releaseTransporter := [], managers := [] }

/-- FIFO-mapping example store: two open bills of 500 for the same party
(dates 1 < 2) and one unmapped receipt of 500. -/
def c5db : DB :=
  { bills := [⟨"B1", ⟨1, "P", 500⟩, 0⟩, ⟨"B2", ⟨2, "P", 500⟩, 0⟩]
    receipts := [⟨"R1", ⟨3, "P", 500, "CASH", "", none⟩, 0⟩]
    releaseSelf := [], releaseTransporter := [], managers := [] }

/-- No-split-mapping example store: two open bills of 500 and one unmapped
receipt of 700. -/
def c6db : DB :=
  { bills := [⟨"B1", ⟨1, "P", 500⟩, 0⟩, ⟨"B2", ⟨2, "P", 500⟩, 0⟩]
    receipts := [⟨"R1", ⟨3, "P", 700, "CASH", "", none⟩, 0⟩]
    releaseSelf := [], releaseTransporter := [], managers := [] }

/-- A store whose only bill already has a release record. -/
def c1db : DB :=
  { bills := [⟨"B1", ⟨1, "P", 0⟩, 0⟩], receipts := []
    releaseSelf := [⟨"B1", "GP-9", none⟩], releaseTransporter := []
    managers := [] }

/-- A release attempt on the already-released bill of `c1db`. -/
def c1req : ReleaseReq := ⟨"B1", "GP-2", none, false⟩

/-- Store for the approval-gate witness: bill `BD` with 800 outstanding,
bill `BP` fully paid by a mapped receipt. -/
def c3db : DB :=
  { bills := [⟨"BD", ⟨1, "P", 800⟩, 0⟩, ⟨"BP", ⟨1, "Q", 500⟩, 0⟩]
    receipts := [⟨"RP", ⟨2, "Q", 500, "CASH", "", some "BP"⟩, 0⟩]
    releaseSelf := [], releaseTransporter := [], managers := [] }

/-- Two fully-paid bills of different parties, no releases yet: the start
state of the concurrent-gatepass schedule. -/
def c2db0 : DB :=
  { bills := [⟨"B1", ⟨1, "P", 500⟩, 0⟩, ⟨"B2", ⟨2, "Q", 500⟩, 0⟩]
    receipts :=
      [⟨"RA", ⟨1, "P", 500, "CASH", "", some "B1"⟩, 0⟩,
        ⟨"RB", ⟨1, "Q", 500, "CASH", "", some "B2"⟩, 0⟩]
    releaseSelf := [], releaseTransporter := [], managers := [] }

/-- First concurrent request: release bill `B1` under gatepass `GP-1`. -/
def c2reqA : ReleaseReq := ⟨"B1", "GP-1", none, false⟩

/-- Second concurrent request: release bill `B2` under the same gatepass. -/
def c2reqB : ReleaseReq := ⟨"B2", "GP-1", none, false⟩

/-- State `c2db0` after the first request's locked section commits. -/
def c2db1 : DB := { c2db0 with releaseSelf := [⟨"B1", "GP-1", none⟩] }

/-- State `c2db1` after the second request's locked section commits: two release
records share gatepass `GP-1`. -/
def c2db2 : DB :=
  { c2db0 with
      releaseSelf := [⟨"B1", "GP-1", none⟩, ⟨"B2", "GP-1", none⟩] }

/-- Sync-idempotence witness batches. -/
def c7brows : List (String × BillData) :=
  [("B1", ⟨1, "P", 100⟩), ("B2", ⟨2, "Q", 200⟩), ("B1", ⟨1, "P", 150⟩)]

/-- Sync-idempotence witness receipt batch. -/
def c7rrows : List (String × ReceiptData) :=
  [("R1", ⟨3, "P", 100, "CASH", "", none⟩)]

/-- Session store for the variance example: opening float 1000 and one
cash payment hint of 1500 inside the session window. -/
def c8db : SessionDB :=
  { sessions :=
      [{ id := "S1", cashierId := "C1", startTs := 0, endTs := none
         startFloat := 1000, countedCash := none, expectedCash := none
         variance := none, closedBy := none, state := "ACTIVE" }]
    paymentHints := [⟨"C1", 1500, 5⟩], pettyCash := [], tillAdjustments := [] }

/-- The session row of `c8db`. -/
def c8s1 : SessionRec :=
  { id := "S1", cashierId := "C1", startTs := 0, endTs := none
    startFloat := 1000, countedCash := none, expectedCash := none
    variance := none, closedBy := none, state := "ACTIVE" }

/-- The store `c8db` extended with a second, unrelated session `S9` that
has 200 of petty cash disbursed against it: under the tautology semantics
of `calculate_expected_cash`, `S9`'s petty cash leaks into `S1`'s
expected-cash figure. -/
def c8db3 : SessionDB :=
  { sessions :=
      [{ id := "S1", cashierId := "C1", startTs := 0, endTs := none
         startFloat := 1000, countedCash := none, expectedCash := none
         variance := none, closedBy := none, state := "ACTIVE" },
        { id := "S9", cashierId := "C9", startTs := 0, endTs := none
          startFloat := 0, countedCash := none, expectedCash := none
          variance := none, closedBy := none, state := "ACTIVE" }]
    paymentHints := [⟨"C1", 1500, 5⟩], pettyCash := [⟨"S9", 200⟩]
    tillAdjustments := [] }

/-- A well-formed raw ODBC bill row. -/
def c9orow1 : OdbcBillRow := ⟨some "V1", some 1, some "P", some 100⟩

/-- A raw ODBC bill row with the voucher number missing. -/
def c9obad : OdbcBillRow := ⟨none, some 1, some "P", some 100⟩

/-- Another well-formed raw ODBC bill row. -/
def c9orow2 : OdbcBillRow := ⟨some "V3", some 2, some "Q", some 200⟩

/-- A raw XML voucher with its date tag missing. -/
def c9xbad : RawVoucher := ⟨"V2", "", "P", "100"⟩

/-! ## Lemmas about keyed upserts -/

section UpsertLemmas

variable {ρ : Type}

theorem upsertEntry_nil (k : String) (p : ρ) (t : Nat) :
    upsertEntry [] k p t = [⟨k, p, t⟩] := by
  simp [upsertEntry]

theorem upsertEntry_cons (e : Entry ρ) (s : List (Entry ρ)) (k : String)
    (p : ρ) (t : Nat) :
    upsertEntry (e :: s) k p t =
      if e.key = k then
        ⟨k, p, t⟩ :: s.map (fun x => if x.key = k then ⟨k, p, t⟩ else x)
      else e :: upsertEntry s k p t := by
  by_cases he : e.key = k
  · simp [upsertEntry, he]
  · by_cases hs : s.any (fun x => x.key = k)
    · simp [upsertEntry, he, hs]
    · simp [upsertEntry, he, hs]

theorem keysOf_map_repl (s : List (Entry ρ)) (k : String) (p : ρ) (t : Nat) :
    keysOf (s.map (fun x => if x.key = k then ⟨k, p, t⟩ else x)) =
      keysOf s := by
  induction s with
  | nil => rfl
  | cons e rest ih =>
    simp only [keysOf, List.map_cons] at ih ⊢
    by_cases he : e.key = k <;> simp [he, ih]

theorem mem_keysOf (s : List (Entry ρ)) (k : String) :
    k ∈ keysOf s ↔ s.any (fun e => e.key = k) = true := by
  simp [keysOf, List.mem_map, List.any_eq_true]

theorem keysOf_upsertEntry (s : List (Entry ρ)) (k : String) (p : ρ)
    (t : Nat) :
    keysOf (upsertEntry s k p t) =
      if s.any (fun e => e.key = k) then keysOf s else keysOf s ++ [k] := by
  unfold upsertEntry
  by_cases h : s.any (fun e => e.key = k)
  · simp [h, keysOf_map_repl]
  · simp [h, keysOf]

theorem any_key_stripTs (s : List (Entry ρ)) (k : String) :
    (stripTs s).any (fun e => e.key = k) = s.any (fun e => e.key = k) := by
  simp only [stripTs, List.any_map]
  rfl

theorem stripTs_upsertEntry (s : List (Entry ρ)) (k : String) (p : ρ)
    (t : Nat) :
    stripTs (upsertEntry s k p t) = upsertEntry (stripTs s) k p 0 := by
  unfold upsertEntry
  rw [any_key_stripTs]
  by_cases h : s.any (fun e => e.key = k)
  · simp only [h, if_pos]
    simp only [stripTs, List.map_map]
    apply List.map_congr_left
    intro x _
    by_cases hx : x.key = k <;> simp [hx]
  · simp only [h, Bool.false_eq_true, if_neg, not_false_iff]
    simp [stripTs]

end UpsertLemmas

section UpsertLemmas2

variable {ρ : Type}

theorem keysOf_stripTs (s : List (Entry ρ)) : keysOf (stripTs s) = keysOf s := by
  simp only [keysOf, stripTs, List.map_map]
  rfl

theorem length_keysOf (s : List (Entry ρ)) : (keysOf s).length = s.length := by
  simp [keysOf]

theorem find_map_repl_self (s : List (Entry ρ)) (k : String) (p : ρ) (t : Nat)
    (h : s.any (fun e => e.key = k) = true) :
    (s.map (fun x => if x.key = k then ⟨k, p, t⟩ else x)).find?
        (fun e => e.key = k) = some ⟨k, p, t⟩ := by
  induction s with
  | nil => simp at h
  | cons e rest ih =>
    by_cases he : e.key = k
    · simp [he, List.find?_cons_of_pos]
    · have hrest : rest.any (fun e => e.key = k) = true := by
        simp [List.any_cons, he] at h
        simpa [List.any_eq_true] using h
      simp only [List.map_cons, he, if_neg, not_false_iff]
      rw [List.find?_cons_of_neg _ (by simp [he])]
      exact ih hrest

theorem find_map_repl_other (s : List (Entry ρ)) (k k' : String) (p : ρ)
    (t : Nat) (hk : k' ≠ k) :
    (s.map (fun x => if x.key = k then ⟨k, p, t⟩ else x)).find?
        (fun e => e.key = k') = s.find? (fun e => e.key = k') := by
  induction s with
  | nil => rfl
  | cons e rest ih =>
    by_cases he : e.key = k
    · have hne : ¬(k = k') := fun h => hk h.symm
      simp only [List.map_cons, he, if_pos]
      rw [List.find?_cons_of_neg _ (by simpa using hne),
        List.find?_cons_of_neg _ (by simpa [he] using hne)]
      exact ih
    · simp only [List.map_cons, he, if_neg, not_false_iff]
      by_cases hp : e.key = k'
      · rw [List.find?_cons_of_pos _ (by simp [hp]),
          List.find?_cons_of_pos _ (by simp [hp])]
      · rw [List.find?_cons_of_neg _ (by simp [hp]),
          List.find?_cons_of_neg _ (by simp [hp])]
        exact ih

theorem find?_append_cases (s l : List (Entry ρ)) (q : Entry ρ → Bool) :
    (s ++ l).find? q =
      match s.find? q with
      | some v => some v
      | none => l.find? q := by
  induction s with
  | nil => rfl
  | cons e rest ih =>
    by_cases he : q e
    · simp [List.find?_cons_of_pos _ he]
    · rw [List.cons_append, List.find?_cons_of_neg _ (by simp [he]),
        List.find?_cons_of_neg _ (by simp [he])]
      exact ih

theorem lookupEntry_upsertEntry_self (s : List (Entry ρ)) (k : String)
    (p : ρ) (t : Nat) :
    lookupEntry (upsertEntry s k p t) k = some ⟨k, p, t⟩ := by
  unfold upsertEntry lookupEntry
  by_cases h : s.any (fun e => e.key = k)
  · simp only [h, if_pos]
    exact find_map_repl_self s k p t h
  · simp only [h, Bool.false_eq_true, if_neg, not_false_iff]
    rw [find?_append_cases]
    have hnone : s.find? (fun e => e.key = k) = none := by
      rw [List.find?_eq_none]
      intro x hx
      simp only [decide_eq_true_eq]
      intro hc
      exact h (List.any_eq_true.mpr ⟨x, hx, by simp [hc]⟩)
    simp [hnone]

theorem lookupEntry_upsertEntry_other (s : List (Entry ρ)) (k k' : String)
    (p : ρ) (t : Nat) (hk : k' ≠ k) :
    lookupEntry (upsertEntry s k p t) k' = lookupEntry s k' := by
  unfold upsertEntry lookupEntry
  by_cases h : s.any (fun e => e.key = k)
  · simp only [h, if_pos]
    exact find_map_repl_other s k k' p t hk
  · simp only [h, Bool.false_eq_true, if_neg, not_false_iff]
    rw [find?_append_cases]
    cases hf : s.find? (fun e => e.key = k') with
    | some v => rfl
    | none =>
      have hne : ¬(k = k') := fun h => hk h.symm
      simp [hne]

theorem nodup_keysOf_upsertEntry (s : List (Entry ρ)) (k : String) (p : ρ)
    (t : Nat) (h : (keysOf s).Nodup) :
    (keysOf (upsertEntry s k p t)).Nodup := by
  rw [keysOf_upsertEntry]
  by_cases ha : s.any (fun e => e.key = k)
  · simpa [ha] using h
  · have hk : k ∉ keysOf s := by
      rw [mem_keysOf]
      simp [ha]
    simp only [ha, Bool.false_eq_true, if_neg, not_false_iff]
    simp [List.nodup_append, h, hk]

end UpsertLemmas2

section UpsertAllLemmas

variable {ρ : Type}

theorem upsertAll_nil (s : List (Entry ρ)) (t : Nat) :
    upsertAll s [] t = s := rfl

theorem upsertAll_cons (s : List (Entry ρ)) (r : String × ρ)
    (rest : List (String × ρ)) (t : Nat) :
    upsertAll s (r :: rest) t = upsertAll (upsertEntry s r.1 r.2 t) rest t :=
  rfl

theorem mem_keysOf_upsertEntry (s : List (Entry ρ)) (k k' : String) (p : ρ)
    (t : Nat) (h : k' ∈ keysOf s) : k' ∈ keysOf (upsertEntry s k p t) := by
  rw [keysOf_upsertEntry]
  by_cases ha : s.any (fun e => e.key = k) <;> simp [ha, h]

theorem mem_keysOf_upsertEntry_self (s : List (Entry ρ)) (k : String) (p : ρ)
    (t : Nat) : k ∈ keysOf (upsertEntry s k p t) := by
  rw [keysOf_upsertEntry]
  by_cases ha : s.any (fun e => e.key = k)
  · simpa [ha] using (mem_keysOf s k).mpr ha
  · simp [ha]

theorem mem_keysOf_upsertAll (s : List (Entry ρ)) (rows : List (String × ρ))
    (k' : String) (t : Nat) (h : k' ∈ keysOf s) :
    k' ∈ keysOf (upsertAll s rows t) := by
  induction rows generalizing s with
  | nil => simpa [upsertAll_nil] using h
  | cons r rest ih =>
    rw [upsertAll_cons]
    exact ih _ (mem_keysOf_upsertEntry s r.1 k' r.2 t h)

theorem rows_mem_keysOf_upsertAll (s : List (Entry ρ))
    (rows : List (String × ρ)) (t : Nat) :
    ∀ r ∈ rows, r.1 ∈ keysOf (upsertAll s rows t) := by
  induction rows generalizing s with
  | nil => intro r hr; simp at hr
  | cons q rest ih =>
    intro r hr
    rcases List.mem_cons.mp hr with h1 | h2
    · subst h1
      rw [upsertAll_cons]
      exact mem_keysOf_upsertAll _ rest r.1 t
        (mem_keysOf_upsertEntry_self s r.1 r.2 t)
    · rw [upsertAll_cons]
      exact ih _ r h2

theorem keysOf_upsertAll_stable (s : List (Entry ρ))
    (rows : List (String × ρ)) (t : Nat)
    (h : ∀ r ∈ rows, r.1 ∈ keysOf s) :
    keysOf (upsertAll s rows t) = keysOf s := by
  induction rows generalizing s with
  | nil => rfl
  | cons r rest ih =>
    rw [upsertAll_cons]
    have hk : r.1 ∈ keysOf s := h r (List.mem_cons_self r rest)
    have hany : s.any (fun e => e.key = r.1) = true := (mem_keysOf s r.1).mp hk
    have hkeys : keysOf (upsertEntry s r.1 r.2 t) = keysOf s := by
      rw [keysOf_upsertEntry, if_pos hany]
    rw [ih _ (fun q hq => hkeys ▸ h q (List.mem_cons_of_mem r hq)), hkeys]

theorem nodup_keysOf_upsertAll (s : List (Entry ρ))
    (rows : List (String × ρ)) (t : Nat) (h : (keysOf s).Nodup) :
    (keysOf (upsertAll s rows t)).Nodup := by
  induction rows generalizing s with
  | nil => simpa [upsertAll_nil] using h
  | cons r rest ih =>
    rw [upsertAll_cons]
    exact ih _ (nodup_keysOf_upsertEntry s r.1 r.2 t h)

theorem stripTs_upsertAll (s : List (Entry ρ)) (rows : List (String × ρ))
    (t : Nat) :
    stripTs (upsertAll s rows t) = upsertAll (stripTs s) rows 0 := by
  induction rows generalizing s with
  | nil => rfl
  | cons r rest ih =>
    rw [upsertAll_cons, upsertAll_cons, ih, stripTs_upsertEntry]

theorem lookupEntry_upsertAll_none_aux (s : List (Entry ρ))
    (rows : List (String × ρ)) (k : String) (t : Nat)
    (h : lastRow rows k = none) :
    lookupEntry (upsertAll s rows t) k = lookupEntry s k := by
  induction rows generalizing s with
  | nil => rfl
  | cons r rest ih =>
    unfold lastRow at h
    cases hrest : lastRow rest k with
    | some q => rw [hrest] at h; simp at h
    | none =>
      rw [hrest] at h
      by_cases hr : r.1 = k
      · simp [hr] at h
      · rw [upsertAll_cons, ih _ hrest,
          lookupEntry_upsertEntry_other s r.1 k r.2 t (fun hc => hr hc.symm)]

theorem lookupEntry_upsertAll_of_some (s : List (Entry ρ))
    (rows : List (String × ρ)) (k : String) (p : ρ) (t : Nat)
    (h : lastRow rows k = some p) :
    lookupEntry (upsertAll s rows t) k = some ⟨k, p, t⟩ := by
  induction rows generalizing s with
  | nil => simp [lastRow] at h
  | cons r rest ih =>
    rw [upsertAll_cons]
    cases hrest : lastRow rest k with
    | some q =>
      have : q = p := by
        unfold lastRow at h
        rw [hrest] at h
        simpa using h
      subst this
      exact ih _ hrest
    | none =>
      unfold lastRow at h
      rw [hrest] at h
      by_cases hr : r.1 = k
      · simp only [hr, if_pos] at h
        have hp : r.2 = p := by simpa using h
        subst hp
        rw [lookupEntry_upsertAll_none_aux _ rest k t hrest, hr]
        exact lookupEntry_upsertEntry_self s k r.2 t
      · simp [hr] at h

end UpsertAllLemmas

section UpsertMainLemmas

variable {ρ : Type}

theorem lastRow_isSome_of_mem (rows : List (String × ρ)) (k : String)
    (h : ∃ r ∈ rows, r.1 = k) : (lastRow rows k).isSome := by
  induction rows with
  | nil => simp at h
  | cons r rest ih =>
    unfold lastRow
    cases hrest : lastRow rest k with
    | some q => simp
    | none =>
      rcases h with ⟨q, hq, hqk⟩
      rcases List.mem_cons.mp hq with h1 | h2
      · subst h1
        simp [hqk]
      · have := ih ⟨q, h2, hqk⟩
        rw [hrest] at this
        simp at this

theorem lookupEntry_stripTs (s : List (Entry ρ)) (k : String) :
    lookupEntry (stripTs s) k =
      (lookupEntry s k).map (fun e => { e with ts := 0 }) := by
  induction s with
  | nil => rfl
  | cons e rest ih =>
    unfold lookupEntry stripTs at ih ⊢
    by_cases he : e.key = k
    · rw [List.map_cons, List.find?_cons_of_pos _ (by simp [he]),
        List.find?_cons_of_pos _ (by simp [he])]
      rfl
    · rw [List.map_cons, List.find?_cons_of_neg _ (by simp [he]),
        List.find?_cons_of_neg _ (by simp [he])]
      exact ih

theorem lookupEntry_of_mem (s : List (Entry ρ)) (e : Entry ρ)
    (hnd : (keysOf s).Nodup) (he : e ∈ s) :
    lookupEntry s e.key = some e := by
  induction s with
  | nil => simp at he
  | cons x rest ih =>
    rcases List.mem_cons.mp he with h1 | h2
    · subst h1
      unfold lookupEntry
      rw [List.find?_cons_of_pos _ (by simp)]
    · have hx : x.key ≠ e.key := by
        have hmem : e.key ∈ keysOf rest := by
          simp only [keysOf, List.mem_map]
          exact ⟨e, h2, rfl⟩
        have : x.key ∉ keysOf rest := by
          have := hnd
          simp only [keysOf, List.map_cons, List.nodup_cons] at this
          exact fun hc => this.1 (by simpa [keysOf] using hc)
        exact fun hc => this (hc ▸ hmem)
      unfold lookupEntry
      rw [List.find?_cons_of_neg _ (by simp [hx])]
      exact ih (by
        have := hnd
        simp only [keysOf, List.map_cons, List.nodup_cons] at this
        simpa [keysOf] using this.2) h2

theorem entry_ext (s1 s2 : List (Entry ρ)) (hkeys : keysOf s1 = keysOf s2)
    (hnd : (keysOf s1).Nodup)
    (hlook : ∀ k, lookupEntry s1 k = lookupEntry s2 k) : s1 = s2 := by
  induction s1 generalizing s2 with
  | nil =>
    cases s2 with
    | nil => rfl
    | cons e rest => simp [keysOf] at hkeys
  | cons e rest ih =>
    cases s2 with
    | nil => simp [keysOf] at hkeys
    | cons e2 rest2 =>
      simp only [keysOf, List.map_cons, List.cons.injEq] at hkeys
      have hek : e.key = e2.key := hkeys.1
      have hhead : e = e2 := by
        have h1 := hlook e.key
        unfold lookupEntry at h1
        rw [List.find?_cons_of_pos _ (by simp),
          List.find?_cons_of_pos _ (by simp [hek.symm])] at h1
        simpa using h1
      subst hhead
      have hndrest : (keysOf rest).Nodup := by
        simp only [keysOf, List.map_cons, List.nodup_cons] at hnd
        simpa [keysOf] using hnd.2
      have hnotin : e.key ∉ keysOf rest := by
        simp only [keysOf, List.map_cons, List.nodup_cons] at hnd
        simpa [keysOf] using hnd.1
      have htail : ∀ k, lookupEntry rest k = lookupEntry rest2 k := by
        intro k
        by_cases hk : e.key = k
        · subst hk
          have hn1 : lookupEntry rest e.key = none := by
            unfold lookupEntry
            rw [List.find?_eq_none]
            intro x hx
            simp only [decide_eq_true_eq]
            intro hc
            exact hnotin (by
              simp only [keysOf, List.mem_map]
              exact ⟨x, hx, hc⟩)
          have hn2 : lookupEntry rest2 e.key = none := by
            unfold lookupEntry
            rw [List.find?_eq_none]
            intro x hx
            simp only [decide_eq_true_eq]
            intro hc
            have hmem2 : e.key ∈ List.map (fun e => e.key) rest2 :=
              List.mem_map.mpr ⟨x, hx, hc⟩
            rw [← hkeys.2] at hmem2
            exact hnotin (by simpa [keysOf] using hmem2)
          rw [hn1, hn2]
        · have h1 := hlook k
          unfold lookupEntry at h1 ⊢
          rw [List.find?_cons_of_neg _ (by simp [hk]),
            List.find?_cons_of_neg _ (by simp [hek ▸ hk])] at h1
          exact h1
      exact congrArg (List.cons e) (ih rest2 (by
        simpa [keysOf] using hkeys.2) hndrest htail)

/-- Re-running an identical upsert batch changes nothing but the sync
timestamps: contents agree up to `last_sync_ts`, no rows are added, and
every row touched by the batch carries the second run's timestamp. -/
theorem upsertAll_twice (s : List (Entry ρ)) (rows : List (String × ρ))
    (t1 t2 : Nat) (hnd : (keysOf s).Nodup) :
    stripTs (upsertAll (upsertAll s rows t1) rows t2) =
        stripTs (upsertAll s rows t1) ∧
      (upsertAll (upsertAll s rows t1) rows t2).length =
        (upsertAll s rows t1).length ∧
      ∀ e ∈ upsertAll (upsertAll s rows t1) rows t2,
        (∃ r ∈ rows, r.1 = e.key) → e.ts = t2 := by
  have hnd1 : (keysOf (upsertAll s rows t1)).Nodup :=
    nodup_keysOf_upsertAll s rows t1 hnd
  have hnd2 : (keysOf (upsertAll (upsertAll s rows t1) rows t2)).Nodup :=
    nodup_keysOf_upsertAll _ rows t2 hnd1
  have hkeys : keysOf (upsertAll (upsertAll s rows t1) rows t2) =
      keysOf (upsertAll s rows t1) :=
    keysOf_upsertAll_stable _ rows t2 (rows_mem_keysOf_upsertAll s rows t1)
  refine ⟨?_, ?_, ?_⟩
  · apply entry_ext
    · rw [keysOf_stripTs, keysOf_stripTs, hkeys]
    · rw [keysOf_stripTs]
      exact hnd2
    · intro k
      rw [lookupEntry_stripTs, lookupEntry_stripTs]
      cases hlast : lastRow rows k with
      | some p =>
        rw [lookupEntry_upsertAll_of_some _ rows k p t2 hlast,
          lookupEntry_upsertAll_of_some _ rows k p t1 hlast]
        rfl
      | none =>
        rw [lookupEntry_upsertAll_none_aux _ rows k t2 hlast]
  · have h1 := length_keysOf (upsertAll (upsertAll s rows t1) rows t2)
    have h2 := length_keysOf (upsertAll s rows t1)
    rw [← h1, ← h2, hkeys]
  · intro e he hex
    rcases Option.isSome_iff_exists.mp (lastRow_isSome_of_mem rows e.key hex)
      with ⟨p, hp⟩
    have h1 := lookupEntry_upsertAll_of_some (upsertAll s rows t1) rows e.key
      p t2 hp
    have h2 := lookupEntry_of_mem _ e hnd2 he
    rw [h1] at h2
    have := Option.some.inj h2
    rw [← this]

end UpsertMainLemmas

/-! ## Lemmas about the release pipeline -/

theorem releaseCount_zero_iff (db : DB) (b : String) :
    releaseCount db b = 0 ↔ hasRelease db b = false := by
  unfold releaseCount hasRelease
  rw [Nat.add_eq_zero]
  simp only [List.length_eq_zero, List.filter_eq_nil_iff, Bool.or_eq_false_iff,
    List.any_eq_false, decide_eq_true_eq]

theorem releaseLocked_ok_shape {v : Variant} {db : DB} {rem : Int}
    {req : ReleaseReq} {db2 : DB}
    (h : releaseLocked v db rem req = .ok db2) :
    hasRelease db req.billNo = false ∧
      ∃ a,
        db2 = { db with releaseSelf :=
            db.releaseSelf ++ [⟨req.billNo, req.gatepassId, a⟩] } ∨
        db2 = { db with releaseTransporter :=
            db.releaseTransporter ++ [⟨req.billNo, req.gatepassId, a⟩] } := by
  unfold releaseLocked at h
  by_cases hr : hasRelease db req.billNo = true
  · simp [hr] at h
  · have hrf : hasRelease db req.billNo = false := by
      simpa using hr
    refine ⟨hrf, ?_⟩
    rw [hrf] at h
    simp only [Bool.false_eq_true, if_neg, not_false_iff] at h
    cases hra : resolveApproval db rem req with
    | error e => rw [hra] at h; simp at h
    | ok a =>
      rw [hra] at h
      cases v with
      | self =>
        simp only [Except.ok.injEq] at h
        exact ⟨a, Or.inl h.symm⟩
      | transporter =>
        simp only [Except.ok.injEq] at h
        exact ⟨a, Or.inr h.symm⟩

theorem releaseAttempt_ok_shape {v : Variant} {db : DB} {req : ReleaseReq}
    {db2 : DB} (h : releaseAttempt v db req = .ok db2) :
    hasRelease db req.billNo = false ∧
      ∃ a,
        db2 = { db with releaseSelf :=
            db.releaseSelf ++ [⟨req.billNo, req.gatepassId, a⟩] } ∨
        db2 = { db with releaseTransporter :=
            db.releaseTransporter ++ [⟨req.billNo, req.gatepassId, a⟩] } := by
  unfold releaseAttempt at h
  cases hp : releasePhase1 db req with
  | error e => rw [hp] at h; simp at h
  | ok rem =>
    rw [hp] at h
    exact releaseLocked_ok_shape h

theorem releaseCount_after_ok {v : Variant} {db : DB} {req : ReleaseReq}
    {db2 : DB} (h : releaseAttempt v db req = .ok db2) (x : String) :
    releaseCount db2 x =
      releaseCount db x + (if req.billNo = x then 1 else 0) := by
  obtain ⟨-, a, hcase⟩ := releaseAttempt_ok_shape h
  rcases hcase with h1 | h1 <;> subst h1 <;>
    by_cases hx : req.billNo = x <;>
      simp [releaseCount, List.filter_append, hx] <;> omega

theorem releaseAttempt_already {v : Variant} {db : DB} {req : ReleaseReq}
    (hb : (findBill db req.billNo).isSome)
    (hr : hasRelease db req.billNo = true) :
    releaseAttempt v db req = .error .alreadyReleased := by
  obtain ⟨b, hbe⟩ := Option.isSome_iff_exists.mp hb
  unfold releaseAttempt releasePhase1
  rw [hbe, hr]
  simp

theorem applyAttempt_le_one (db : DB) (a : Variant × ReleaseReq) (b : String)
    (h : releaseCount db b ≤ 1) : releaseCount (applyAttempt db a) b ≤ 1 := by
  unfold applyAttempt
  cases hA : releaseAttempt a.1 db a.2 with
  | error e => exact h
  | ok db2 =>
    rw [releaseCount_after_ok hA b]
    by_cases hx : a.2.billNo = b
    · have h0 : releaseCount db a.2.billNo = 0 :=
        (releaseCount_zero_iff db a.2.billNo).mpr
          (releaseAttempt_ok_shape hA).1
      rw [hx] at h0
      simp [hx, h0]
    · simp [hx, h]

theorem applyAttempts_le_one (db : DB) (l : List (Variant × ReleaseReq))
    (b : String) (h : releaseCount db b ≤ 1) :
    releaseCount (applyAttempts db l) b ≤ 1 := by
  induction l generalizing db with
  | nil => exact h
  | cons a rest ih =>
    have hstep : applyAttempts db (a :: rest) =
        applyAttempts (applyAttempt db a) rest := rfl
    rw [hstep]
    exact ih _ (applyAttempt_le_one db a b h)

/-! ## Lemmas about the auto-mapping candidate selection -/

theorem pickOldest_go (l : List (Entry BillData))
    (acc : Option (Entry BillData)) (b : Entry BillData)
    (h : l.foldl pickStep acc = some b) :
    (acc = some b ∨ b ∈ l) ∧
      (∀ c, acc = some c → b.data.billDate ≤ c.data.billDate) ∧
      (∀ c ∈ l, b.data.billDate ≤ c.data.billDate) := by
  induction l generalizing acc with
  | nil =>
    refine ⟨Or.inl h, ?_, ?_⟩
    · intro c hc
      rw [hc] at h
      rw [Option.some.inj h]
    · intro c hc
      simp at hc
  | cons x xs ih =>
    have hfold : xs.foldl pickStep (pickStep acc x) = some b := h
    obtain ⟨ih1, ih2, ih3⟩ := ih (pickStep acc x) hfold
    have hstep_le : b.data.billDate ≤ x.data.billDate ∨
        (∃ c, acc = some c ∧ b.data.billDate ≤ c.data.billDate ∧
          c.data.billDate ≤ x.data.billDate) := by
      cases hacc : acc with
      | none =>
        left
        exact ih2 x (by simp [pickStep, hacc])
      | some c =>
        by_cases hlt : x.data.billDate < c.data.billDate
        · left
          exact ih2 x (by simp [pickStep, hacc, hlt])
        · right
          exact ⟨c, rfl, ih2 c (by simp [pickStep, hacc, hlt]),
            le_of_not_lt hlt⟩
    refine ⟨?_, ?_, ?_⟩
    · rcases ih1 with hstep | hmem
      · cases hacc : acc with
        | none =>
          rw [hacc] at hstep
          simp only [pickStep] at hstep
          exact Or.inr (List.mem_cons.mpr (Or.inl (Option.some.inj hstep).symm))
        | some c =>
          rw [hacc] at hstep
          simp only [pickStep] at hstep
          by_cases hlt : x.data.billDate < c.data.billDate
          · rw [if_pos hlt] at hstep
            exact Or.inr (List.mem_cons.mpr
              (Or.inl (Option.some.inj hstep).symm))
          · rw [if_neg hlt] at hstep
            exact Or.inl (hacc ▸ hstep)
      · exact Or.inr (List.mem_cons.mpr (Or.inr hmem))
    · intro c hc
      subst hc
      by_cases hlt : x.data.billDate < c.data.billDate
      · have hbx := ih2 x (by simp [pickStep, hlt])
        exact le_trans hbx (le_of_lt hlt)
      · exact ih2 c (by simp [pickStep, hlt])
    · intro c hc
      rcases List.mem_cons.mp hc with h1 | h2
      · subst h1
        rcases hstep_le with h1 | ⟨d, hd, hbd, hdx⟩
        · exact h1
        · exact le_trans hbd hdx
      · exact ih3 c h2

theorem pickOldest_go_isSome (l : List (Entry BillData))
    (c : Entry BillData) : (l.foldl pickStep (some c)).isSome := by
  induction l generalizing c with
  | nil => simp
  | cons x xs ih =>
    have : ∃ d, pickStep (some c) x = some d := by
      simp only [pickStep]
      by_cases hlt : x.data.billDate < c.data.billDate
      · exact ⟨x, by rw [if_pos hlt]⟩
      · exact ⟨c, by rw [if_neg hlt]⟩
    obtain ⟨d, hd⟩ := this
    show (xs.foldl pickStep (pickStep (some c) x)).isSome
    rw [hd]
    exact ih d

theorem pickOldest_spec (l : List (Entry BillData)) (b : Entry BillData)
    (h : pickOldest l = some b) :
    b ∈ l ∧ ∀ c ∈ l, b.data.billDate ≤ c.data.billDate := by
  obtain ⟨h1, -, h3⟩ := pickOldest_go l none b h
  refine ⟨?_, h3⟩
  rcases h1 with hc | hm
  · simp at hc
  · exact hm

theorem pickOldest_isSome (l : List (Entry BillData)) (h : l ≠ []) :
    (pickOldest l).isSome := by
  cases l with
  | nil => exact absurd rfl h
  | cons x xs =>
    show (xs.foldl pickStep (pickStep none x)).isSome
    simp only [pickStep]
    exact pickOldest_go_isSome xs x

theorem mapCandidates_mem (db : DB) (p : String) (amt : Int)
    (b : Entry BillData) (hb : b ∈ mapCandidates db p amt) :
    b ∈ db.bills ∧ b.data.partyName = p ∧ billRemainingDue db b > 0 ∧
      billRemainingDue db b ≥ amt := by
  unfold mapCandidates at hb
  rw [List.mem_filter] at hb
  refine ⟨hb.1, ?_⟩
  have := hb.2
  simp only [Bool.and_eq_true, decide_eq_true_eq] at this
  exact ⟨this.1.1, this.1.2, this.2⟩

theorem mapCandidates_complete (db : DB) (p : String) (amt : Int)
    (b : Entry BillData) (hb : b ∈ db.bills) (hp : b.data.partyName = p)
    (h0 : billRemainingDue db b > 0) (ha : billRemainingDue db b ≥ amt) :
    b ∈ mapCandidates db p amt := by
  unfold mapCandidates
  rw [List.mem_filter]
  exact ⟨hb, by simp [hp, h0, ha]⟩

theorem mapStep_no_candidate (db : DB) (r : Entry ReceiptData)
    (h : ∀ bb ∈ db.bills, bb.data.partyName = r.data.partyName →
      billRemainingDue db bb < r.data.amount) :
    mapStep db r = (db, false) := by
  have hc : mapCandidates db r.data.partyName r.data.amount = [] := by
    unfold mapCandidates
    rw [List.filter_eq_nil_iff]
    intro bb hbb
    simp only [Bool.and_eq_true, decide_eq_true_eq, not_and]
    intro hpp
    exact fun h0 => absurd (h bb hbb hpp.1) (not_lt.mpr h0)
  unfold mapStep selectCandidate
  rw [hc]
  rfl

/-! ## Claim theorems -/

/-- Claim C1: at most one release record ever exists per bill (self and
transporter variant combined): an attempt on a bill that already has a
release record in either table is rejected as already released and changes
nothing; a successful attempt starts from zero records for its bill and
leaves exactly one; and any sequence of attempts preserves the at-most-one
invariant. -/
theorem release_unique_per_bill :
    (∀ (db : DB) (req : ReleaseReq) (v : Variant),
        (findBill db req.billNo).isSome = true →
        hasRelease db req.billNo = true →
          releaseAttempt v db req = .error .alreadyReleased ∧
          applyAttempt db (v, req) = db) ∧
    (∀ (db : DB) (req : ReleaseReq) (v : Variant) (db2 : DB),
        releaseAttempt v db req = .ok db2 →
          releaseCount db req.billNo = 0 ∧
          releaseCount db2 req.billNo = 1) ∧
    (∀ (db : DB) (l : List (Variant × ReleaseReq)) (b : String),
        releaseCount db b ≤ 1 →
          releaseCount (applyAttempts db l) b ≤ 1) := by
  refine ⟨?_, ?_, ?_⟩
  · intro db req v hb hr
    have he := releaseAttempt_already (v := v) hb hr
    refine ⟨he, ?_⟩
    unfold applyAttempt
    rw [he]
  · intro db req v db2 h
    have h0 := (releaseCount_zero_iff db req.billNo).mpr
      (releaseAttempt_ok_shape h).1
    refine ⟨h0, ?_⟩
    rw [releaseCount_after_ok h req.billNo, h0, if_pos rfl]
  · exact applyAttempts_le_one

/-- Witness for C1 at concrete stores. -/
theorem release_unique_per_bill_witness :
    (releaseAttempt .self c1db c1req = .error .alreadyReleased ∧
      applyAttempt c1db (.self, c1req) = c1db) ∧
    (releaseCount c2db0 "B1" = 0 ∧ releaseCount c2db1 "B1" = 1) ∧
    releaseCount
      (applyAttempts c1db [(.self, c1req), (.transporter, c1req)]) "B1" ≤ 1 :=
  ⟨release_unique_per_bill.1 c1db c1req .self (by decide) (by decide),
    release_unique_per_bill.2.1 c2db0 c2reqA .self c2db1 (by rfl),
    release_unique_per_bill.2.2 c1db _ "B1" (by decide)⟩

/-- Claim C2 (counterexample): the locked section of the release transaction
does NOT re-check gatepass uniqueness.  Two requests for different bills
sharing gatepass `GP-1` both pass the un-locked checks against the same
initial store; their locked sections (which lock different bill rows, so
they do not serialize against each other) then both commit, and the second
is not rejected with `GatepassInUse` even though its gatepass is already
used in the store it runs against — leaving two release records with the
same gatepass id. -/
theorem gatepass_lock_recheck_cex :
    releasePhase1 c2db0 c2reqA = .ok 0 ∧
    releasePhase1 c2db0 c2reqB = .ok 0 ∧
    releaseLocked .self c2db0 0 c2reqA = .ok c2db1 ∧
    gatepassUsed c2db1 "GP-1" = true ∧
    releaseLocked .self c2db1 0 c2reqB = .ok c2db2 ∧
    releaseLocked .self c2db1 0 c2reqB ≠ .error .gatepassInUse ∧
    gatepassCount c2db2 "GP-1" = 2 :=
  ⟨rfl, rfl, rfl, by decide, rfl,
    by
      rw [show releaseLocked Variant.self c2db1 0 c2reqB = Except.ok c2db2
        from rfl]
      simp,
    by decide⟩

/-- Claim C2 (amended): gatepass uniqueness is enforced once, by the
un-locked `validateGatepassId` check before the transaction opens: a
release attempt whose gatepass id is already used by any release of either
variant — even for a different bill — is rejected with `GatepassInUse` and
inserts nothing.  The locked section re-checks only bill-release
existence; it can never reject with `GatepassInUse`. -/
theorem gatepass_unique_prelock :
    (∀ (db : DB) (req : ReleaseReq) (v : Variant) (b : Entry BillData),
        findBill db req.billNo = some b →
        hasRelease db req.billNo = false →
        billRemainingDue db b ≤ 0 →
        gatepassUsed db req.gatepassId = true →
          releaseAttempt v db req = .error .gatepassInUse ∧
          applyAttempt db (v, req) = db) ∧
    (∀ (v : Variant) (db : DB) (rem : Int) (req : ReleaseReq),
        releaseLocked v db rem req ≠ .error .gatepassInUse) := by
  constructor
  · intro db req v b hb hr hrem hg
    have hatt : releaseAttempt v db req = .error .gatepassInUse := by
      unfold releaseAttempt releasePhase1
      rw [hb, hr]
      have hno : ¬ billRemainingDue db b > 0 := not_lt.mpr hrem
      simp [hno, hg]
    exact ⟨hatt, by unfold applyAttempt; rw [hatt]⟩
  · intro v db rem req h
    unfold releaseLocked at h
    by_cases hr : hasRelease db req.billNo = true
    · rw [if_pos hr] at h
      simp at h
    · rw [if_neg hr] at h
      cases hra : resolveApproval db rem req with
      | error e =>
        rw [hra] at h
        have he : e = .gatepassInUse := by simpa using h
        subst he
        unfold resolveApproval at hra
        by_cases h0 : rem > 0
        · rw [if_pos h0] at hra
          cases hp : req.managerPin with
          | some pin =>
            simp only [hp] at hra
            cases hm : findManager db pin with
            | some mid => simp [hm] at hra
            | none => simp [hm] at hra
          | none =>
            simp only [hp] at hra
            by_cases ho : req.otpVerified <;> simp [ho] at hra
        · rw [if_neg h0] at hra
          simp at hra
      | ok a =>
        rw [hra] at h
        cases v <;> simp at h

/-- Witness for the amended C2 at a concrete store: an attempt on the
not-yet-released bill `B2` whose gatepass is already used by the release
of `B1` is rejected with `GatepassInUse`, and nothing is inserted. -/
theorem gatepass_unique_prelock_witness :
    (releaseAttempt .self c2db1 c2reqB = .error .gatepassInUse ∧
      applyAttempt c2db1 (.self, c2reqB) = c2db1) ∧
    releaseLocked .transporter c2db1 0 c2reqB ≠ .error .gatepassInUse :=
  ⟨gatepass_unique_prelock.1 c2db1 c2reqB .self ⟨"B2", ⟨2, "Q", 500⟩, 0⟩
      (by rfl) (by decide) (by decide) (by decide),
    gatepass_unique_prelock.2 .transporter c2db1 0 c2reqB⟩

/-- Claim C3: a release attempt (either variant) on a not-yet-released bill
with outstanding due is rejected with the approval-required error — and
nothing is inserted — when the caller supplies neither a manager PIN nor
the verified-OTP flag; a bill with no outstanding due proceeds with
neither credential (given a fresh gatepass). -/
theorem approval_required_gate :
    (∀ (db : DB) (req : ReleaseReq) (v : Variant) (b : Entry BillData),
        findBill db req.billNo = some b →
        hasRelease db req.billNo = false →
        billRemainingDue db b > 0 →
        req.managerPin = none → req.otpVerified = false →
          releaseAttempt v db req = .error .approvalRequired ∧
          applyAttempt db (v, req) = db) ∧
    (∀ (db : DB) (req : ReleaseReq) (v : Variant) (b : Entry BillData),
        findBill db req.billNo = some b →
        hasRelease db req.billNo = false →
        gatepassUsed db req.gatepassId = false →
        billRemainingDue db b ≤ 0 →
        req.managerPin = none → req.otpVerified = false →
          ∃ db2, releaseAttempt v db req = .ok db2 ∧
            releaseCount db2 req.billNo = 1) := by
  constructor
  · intro db req v b hb hr hrem hpin hotp
    have hatt : releaseAttempt v db req = .error .approvalRequired := by
      unfold releaseAttempt releasePhase1
      rw [hb, hr]
      simp [hpin, hotp, hrem]
    exact ⟨hatt, by unfold applyAttempt; rw [hatt]⟩
  · intro db req v b hb hr hg hrem hpin hotp
    have hno : ¬ billRemainingDue db b > 0 := not_lt.mpr hrem
    have hphase : releasePhase1 db req = .ok (billRemainingDue db b) := by
      unfold releasePhase1
      rw [hb, hr]
      simp [hno, hg]
    have hres : resolveApproval db (billRemainingDue db b) req = .ok none := by
      unfold resolveApproval
      rw [if_neg hno]
    have hlocked : ∃ db2,
        releaseLocked v db (billRemainingDue db b) req = .ok db2 := by
      unfold releaseLocked
      rw [hr]
      simp only [Bool.false_eq_true, if_neg, not_false_iff]
      rw [hres]
      cases v <;> exact ⟨_, rfl⟩
    obtain ⟨db2, hdb2⟩ := hlocked
    have hatt : releaseAttempt v db req = .ok db2 := by
      unfold releaseAttempt
      rw [hphase]
      exact hdb2
    refine ⟨db2, hatt, ?_⟩
    have h0 := (releaseCount_zero_iff db req.billNo).mpr hr
    rw [releaseCount_after_ok hatt req.billNo, h0, if_pos rfl]

/-- Witness for C3: bill `BD` (800 outstanding) with no credentials is
rejected with the approval-required error; fully-paid bill `BP` is
released with no credentials. -/
theorem approval_required_gate_witness :
    (releaseAttempt .self c3db ⟨"BD", "G1", none, false⟩ =
        .error .approvalRequired ∧
      applyAttempt c3db (.self, ⟨"BD", "G1", none, false⟩) = c3db) ∧
    (∃ db2, releaseAttempt .transporter c3db ⟨"BP", "G2", none, false⟩ =
        .ok db2 ∧ releaseCount db2 "BP" = 1) :=
  ⟨approval_required_gate.1 c3db ⟨"BD", "G1", none, false⟩ .self
      ⟨"BD", ⟨1, "P", 800⟩, 0⟩ (by rfl) (by decide) (by decide) rfl rfl,
    approval_required_gate.2 c3db ⟨"BP", "G2", none, false⟩ .transporter
      ⟨"BP", ⟨1, "Q", 500⟩, 0⟩ (by rfl) (by decide) (by decide) (by decide)
      rfl rfl⟩

/-- Claim C4: the derived bill status — `receipt_total` is the sum of the
amounts of the receipts mapped to the bill, `remaining_due` is the bill
amount minus that total, and the status is DUE when the total is zero,
PAID when it reaches the bill amount, and PART-PAID otherwise; on the
example store: amount 1000 with 1000 mapped ⇒ PAID, with 400 mapped ⇒
PART-PAID (600 remaining), with nothing mapped ⇒ DUE. -/
theorem bill_status_derivation :
    (∀ (db : DB) (bn : String),
        receiptTotal db bn =
          (db.receipts.map (fun r =>
            if r.data.billRef = some bn then r.data.amount else 0)).sum) ∧
    (∀ amount total : Int,
        (statusOf amount total = .due ↔ total = 0) ∧
        (statusOf amount total = .paid ↔ total ≠ 0 ∧ total ≥ amount) ∧
        (statusOf amount total = .partPaid ↔ total ≠ 0 ∧ total < amount)) ∧
    (∀ (db : DB) (b : Entry BillData), b ∈ db.bills →
        ({ billNo := b.key, billDate := b.data.billDate
           partyName := b.data.partyName, billAmount := b.data.amount
           receiptTotal := receiptTotal db b.key
           remainingDue := b.data.amount - receiptTotal db b.key
           payStatus := statusOf b.data.amount (receiptTotal db b.key) } :
          BillStatusRow) ∈ billStatusView db) ∧
    billStatusView c4db =
      [⟨"BA", 1, "P", 1000, 1000, 0, .paid⟩,
        ⟨"BB", 2, "P", 1000, 400, 600, .partPaid⟩,
        ⟨"BC", 3, "P", 1000, 0, 1000, .due⟩] := by
  refine ⟨?_, ?_, ?_, by decide⟩
  · intro db bn
    unfold receiptTotal
    induction db.receipts with
    | nil => rfl
    | cons r rs ih =>
      by_cases hr : r.data.billRef = some bn <;> simp [hr, ih]
  · intro amount total
    unfold statusOf
    by_cases t0 : total = 0
    · simp [t0]
    · by_cases tga : total ≥ amount
      · simp [t0, tga]
      · simp [t0, tga, lt_of_not_ge tga]
  · intro db b hb
    unfold billStatusView
    exact List.mem_map.mpr ⟨b, hb, rfl⟩

/-- Witness for C4 at the example store. -/
theorem bill_status_derivation_witness :
    receiptTotal c4db "BA" =
      (c4db.receipts.map (fun r =>
        if r.data.billRef = some "BA" then r.data.amount else 0)).sum ∧
    (statusOf 1000 400 = .partPaid ↔ (400 : Int) ≠ 0 ∧ (400 : Int) < 1000) ∧
    ({ billNo := "BA", billDate := 1, partyName := "P", billAmount := 1000
       receiptTotal := receiptTotal c4db "BA"
       remainingDue := 1000 - receiptTotal c4db "BA"
       payStatus := statusOf 1000 (receiptTotal c4db "BA") } :
      BillStatusRow) ∈ billStatusView c4db :=
  ⟨bill_status_derivation.1 c4db "BA",
    (bill_status_derivation.2.1 1000 400).2.2,
    bill_status_derivation.2.2.1 c4db ⟨"BA", ⟨1, "P", 1000⟩, 0⟩ (by decide)⟩

/-- Claim C5: the auto-mapping engine's candidate query keeps exactly the
same-party bills with positive remaining due that pass the eligibility
rule, and its `ORDER BY bill_date LIMIT 1` picks an eligible bill of
minimal bill date (whenever an eligible candidate exists one is picked);
on the example store, the receipt of 500 is linked to `B1`, the
earlier-dated of the two open 500 bills. -/
theorem fifo_oldest_eligible :
    (∀ (db : DB) (p : String) (amt : Int) (b : Entry BillData),
        selectCandidate db p amt = some b →
          b ∈ mapCandidates db p amt ∧
          ∀ c ∈ mapCandidates db p amt,
            b.data.billDate ≤ c.data.billDate) ∧
    (∀ (db : DB) (p : String) (amt : Int),
        mapCandidates db p amt ≠ [] → (selectCandidate db p amt).isSome) ∧
    ((autoMapReceipts c5db).1.receipts.find? (fun r => r.key = "R1")).map
        (fun r => r.data.billRef) = some (some "B1") := by
  refine ⟨?_, ?_, by decide⟩
  · intro db p amt b h
    exact pickOldest_spec _ b h
  · intro db p amt h
    exact pickOldest_isSome _ h

/-- Witness for C5 at the example store. -/
theorem fifo_oldest_eligible_witness :
    (⟨"B1", ⟨1, "P", 500⟩, 0⟩ : Entry BillData) ∈
        mapCandidates c5db "P" 500 ∧
    (selectCandidate c5db "P" 500).isSome :=
  ⟨(fifo_oldest_eligible.1 c5db "P" 500 ⟨"B1", ⟨1, "P", 500⟩, 0⟩
      (by decide)).1,
    fifo_oldest_eligible.2.1 c5db "P" 500 (by decide)⟩

/-- Claim C6: a receipt is only ever linked to a bill whose remaining due is
at least the receipt amount; when no same-party bill has sufficient
remaining due the mapping step leaves the receipt unmapped; on the example
store, the receipt of 700 against two 500-due bills stays unmapped. -/
theorem no_split_mapping :
    (∀ (db : DB) (p : String) (amt : Int) (b : Entry BillData),
        selectCandidate db p amt = some b →
          b.data.partyName = p ∧ billRemainingDue db b > 0 ∧
          billRemainingDue db b ≥ amt) ∧
    (∀ (db : DB) (r : Entry ReceiptData),
        (∀ bb ∈ db.bills, bb.data.partyName = r.data.partyName →
            billRemainingDue db bb < r.data.amount) →
          mapStep db r = (db, false)) ∧
    ((autoMapReceipts c6db).1.receipts.find? (fun r => r.key = "R1")).map
        (fun r => r.data.billRef) = some none := by
  refine ⟨?_, mapStep_no_candidate, by decide⟩
  intro db p amt b h
  have hmem := (pickOldest_spec _ b h).1
  have hprops := mapCandidates_mem db p amt b hmem
  exact ⟨hprops.2.1, hprops.2.2.1, hprops.2.2.2⟩

/-- Witness for C6: the eligibility facts of the selected bill in `c5db`,
and the no-candidate case on `c6db` (receipt 700, both bills due 500). -/
theorem no_split_mapping_witness :
    (billRemainingDue c5db ⟨"B1", ⟨1, "P", 500⟩, 0⟩ ≥ 500 ∧
      billRemainingDue c5db ⟨"B1", ⟨1, "P", 500⟩, 0⟩ > 0) ∧
    mapStep c6db ⟨"R1", ⟨3, "P", 700, "CASH", "", none⟩, 0⟩ = (c6db, false) :=
  ⟨⟨(no_split_mapping.1 c5db "P" 500 ⟨"B1", ⟨1, "P", 500⟩, 0⟩
        (by decide)).2.2,
      (no_split_mapping.1 c5db "P" 500 ⟨"B1", ⟨1, "P", 500⟩, 0⟩
        (by decide)).2.1⟩,
    no_split_mapping.2.1 c6db ⟨"R1", ⟨3, "P", 700, "CASH", "", none⟩, 0⟩
      (by decide)⟩

/-- Claim C7: re-running the bills and receipts sync with an identical batch
is idempotent: the bill and receipt stores are unchanged up to
`last_sync_ts`, no rows are added, and every row whose key appears in the
batch carries the second run's sync timestamp. -/
theorem sync_upsert_idempotent (db : DB) (brows : List (String × BillData))
    (rrows : List (String × ReceiptData)) (t1 t2 t3 t4 : Nat)
    (hb : (keysOf db.bills).Nodup) (hr : (keysOf db.receipts).Nodup) :
    stripTs
        (syncCycle (syncCycle db brows rrows t1 t2) brows rrows t3 t4).bills =
      stripTs (syncCycle db brows rrows t1 t2).bills ∧
    stripTs
        (syncCycle (syncCycle db brows rrows t1 t2) brows rrows t3
          t4).receipts =
      stripTs (syncCycle db brows rrows t1 t2).receipts ∧
    (syncCycle (syncCycle db brows rrows t1 t2) brows rrows t3
        t4).bills.length =
      (syncCycle db brows rrows t1 t2).bills.length ∧
    (syncCycle (syncCycle db brows rrows t1 t2) brows rrows t3
        t4).receipts.length =
      (syncCycle db brows rrows t1 t2).receipts.length ∧
    (∀ e ∈ (syncCycle (syncCycle db brows rrows t1 t2) brows rrows t3
        t4).bills, (∃ r ∈ brows, r.1 = e.key) → e.ts = t3) ∧
    (∀ e ∈ (syncCycle (syncCycle db brows rrows t1 t2) brows rrows t3
        t4).receipts, (∃ r ∈ rrows, r.1 = e.key) → e.ts = t4) := by
  obtain ⟨hb1, hb2, hb3⟩ := upsertAll_twice db.bills brows t1 t3 hb
  obtain ⟨hr1, hr2, hr3⟩ := upsertAll_twice db.receipts rrows t2 t4 hr
  exact ⟨hb1, hr1, hb2, hr2, hb3, hr3⟩

/-- Witness for C7 on a concrete batch (with a repeated key `B1`). -/
theorem sync_upsert_idempotent_witness :
    stripTs
        (syncCycle (syncCycle emptyDB c7brows c7rrows 1 2) c7brows c7rrows 3
          4).bills =
      stripTs (syncCycle emptyDB c7brows c7rrows 1 2).bills ∧
    stripTs
        (syncCycle (syncCycle emptyDB c7brows c7rrows 1 2) c7brows c7rrows 3
          4).receipts =
      stripTs (syncCycle emptyDB c7brows c7rrows 1 2).receipts :=
  ⟨(sync_upsert_idempotent emptyDB c7brows c7rrows 1 2 3 4 (by decide)
      (by decide)).1,
    (sync_upsert_idempotent emptyDB c7brows c7rrows 1 2 3 4 (by decide)
      (by decide)).2.1⟩

/-- Claim C8 (code bug): the session-close path cannot behave as the
claim (and the repository's own tests) describe, because
`calculate_expected_cash` names its parameter `session_id` and then
filters `petty_cash`/`till_adjustment` with `WHERE session_id =
session_id`.  Under stock PostgreSQL the reference is ambiguous and the
function raises, so `validateCashVariance` responds 500 and NO close is
ever persisted — in particular the claim's own example (float 1000, cash
hint 1500, counted 2000) gets the server error instead of a CLOSED
session with variance −500.  Under the `use_variable`/`use_column`
overrides the clause is a tautology: on a store with a second session
holding 200 of petty cash, `S1`'s expected cash comes out 2300, not the
2500 the claim's per-session formula (`specExpectedCash`) gives. -/
theorem session_close_variance_bug :
    (∀ (threshold : Int) (db : SessionDB) (sid : String) (counted : Int)
        (closedBy : String) (now : Int),
        closeSession true threshold db sid counted closedBy now =
            .serverError ∨
          closeSession true threshold db sid counted closedBy now =
            .notFound) ∧
    closeSession true 100 c8db "S1" 2000 "U" 10 = .serverError ∧
    calculateExpectedCash false c8db3 c8s1 10 = .ok 2300 ∧
    specExpectedCash c8db3 c8s1 10 = 2500 ∧
    specExpectedCash c8db c8s1 10 = 2500 := by
  refine ⟨?_, rfl, rfl, by decide, by decide⟩
  intro threshold db sid counted closedBy now
  unfold closeSession
  cases hf : db.sessions.find? (fun s => s.id = sid) with
  | none => exact Or.inr (by simp [hf])
  | some s =>
    by_cases hact : s.state = "ACTIVE"
    · refine Or.inl ?_
      simp only [hf]
      rw [if_pos hact]
      rfl
    · exact Or.inr (by simp [hf, hact])

theorem parseVouchers_cons (pf : String → Int) (today : String)
    (v : RawVoucher) (rest : List RawVoucher) :
    parseVouchersFromXML pf today (v :: rest) =
      if wellFormedVoucher v then
        (v.voucherNumber,
          ⟨formatTallyDate today v.date, v.partyName, pf v.amount⟩) ::
          parseVouchersFromXML pf today rest
      else parseVouchersFromXML pf today rest := rfl

/-- Claim C9 (counterexample): in the ODBC bills phase, a raw row with a
missing voucher number is fatal to the whole phase — the batch is rolled
back and the remaining well-formed rows (`V1`, `V3`) are not upserted —
matching the repository's own ETL test, which asserts that `syncBills`
rejects on a `null` `bill_no`. -/
theorem malformed_record_cex :
    syncBillsODBC [c9orow1, c9obad, c9orow2] [] 5 = .error () ∧
    c9obad.bill_no = none ∧
    (c9orow1.bill_no.isSome && c9orow1.bill_date.isSome &&
      c9orow1.party_name.isSome && c9orow1.amount.isSome) = true ∧
    (c9orow2.bill_no.isSome && c9orow2.bill_date.isSome &&
      c9orow2.party_name.isSome && c9orow2.amount.isSome) = true :=
  ⟨rfl, rfl, by decide, by decide⟩

/-- Claim C9 (amended): the XML parse drops a voucher missing any required
value as a local per-record skip — the remaining vouchers parse and upsert
exactly as if the malformed one were absent — while in the ODBC bills
phase a row with a missing required column aborts and rolls back the
whole phase. -/
theorem malformed_record_skip :
    (∀ (pf : String → Int) (today : String) (xs ys : List RawVoucher)
        (bad : RawVoucher) (store : List (Entry XmlBillData)) (t : Nat),
        wellFormedVoucher bad = false →
          parseVouchersFromXML pf today (xs ++ bad :: ys) =
            parseVouchersFromXML pf today (xs ++ ys) ∧
          syncBillsXML pf today (xs ++ bad :: ys) store t =
            syncBillsXML pf today (xs ++ ys) store t) ∧
    (∀ (rows : List OdbcBillRow) (store : List (Entry BillData)) (t : Nat)
        (bad : OdbcBillRow), bad ∈ rows →
        (bad.bill_no = none ∨ bad.bill_date = none ∨
          bad.party_name = none ∨ bad.amount = none) →
          syncBillsODBC rows store t = .error ()) := by
  constructor
  · intro pf today xs ys bad store t hbad
    have hparse : ∀ xs2 : List RawVoucher,
        parseVouchersFromXML pf today (xs2 ++ bad :: ys) =
          parseVouchersFromXML pf today (xs2 ++ ys) := by
      intro xs2
      induction xs2 with
      | nil =>
        rw [List.nil_append, List.nil_append, parseVouchers_cons]
        simp [hbad]
      | cons v rest ih =>
        rw [List.cons_append, List.cons_append, parseVouchers_cons,
          parseVouchers_cons, ih]
    refine ⟨hparse xs, ?_⟩
    unfold syncBillsXML
    rw [hparse xs]
  · intro rows store t bad hmem hcase
    unfold syncBillsODBC
    have haux : ∀ (rows2 : List OdbcBillRow) (store2 : List (Entry BillData))
        (n : Nat), bad ∈ rows2 →
          odbcUpsertLoop t rows2 store2 n = .error () := by
      intro rows2
      induction rows2 with
      | nil => intro store2 n h2; simp at h2
      | cons r rest ih =>
        intro store2 n h2
        rcases List.mem_cons.mp h2 with rfl | h3
        · rcases hcase with hc | hc | hc | hc <;>
            rcases hbn : bad.bill_no with _ | bn <;>
              rcases hbd : bad.bill_date with _ | bd <;>
                rcases hpn : bad.party_name with _ | pn <;>
                  rcases ham : bad.amount with _ | am <;>
                    simp_all [odbcUpsertLoop]
        · cases hbn : r.bill_no with
          | none => unfold odbcUpsertLoop; rw [hbn]
          | some bn =>
            cases hbd : r.bill_date with
            | none => unfold odbcUpsertLoop; rw [hbn, hbd]
            | some bd =>
              cases hpn : r.party_name with
              | none => unfold odbcUpsertLoop; rw [hbn, hbd, hpn]
              | some pn =>
                cases ham : r.amount with
                | none => unfold odbcUpsertLoop; rw [hbn, hbd, hpn, ham]
                | some amt =>
                  have hstep : odbcUpsertLoop t (r :: rest) store2 n =
                      odbcUpsertLoop t rest
                        (upsertEntry store2 bn ⟨bd, pn, amt⟩ t) (n + 1) := by
                    simp only [odbcUpsertLoop, hbn, hbd, hpn, ham]
                  rw [hstep]
                  exact ih _ (n + 1) h3
    exact haux rows store 0 hmem

/-- Witness for the amended C9: dropping the date-less voucher `V2` leaves
the parse of the surrounding batch unchanged, and an ODBC batch containing
the `bill_no`-less row fails as a whole. -/
theorem malformed_record_skip_witness :
    (parseVouchersFromXML (fun _ => 0) "T"
        ([] ++ c9xbad :: [⟨"V1", "20240101", "P", "100"⟩]) =
      parseVouchersFromXML (fun _ => 0) "T"
        ([] ++ [⟨"V1", "20240101", "P", "100"⟩])) ∧
    syncBillsODBC [c9orow1, c9obad] [] 3 = .error () :=
  ⟨(malformed_record_skip.1 (fun _ => 0) "T" []
      [⟨"V1", "20240101", "P", "100"⟩] c9xbad [] 0 (by decide)).1,
    malformed_record_skip.2 [c9orow1, c9obad] [] 3 c9obad (by decide)
      (Or.inl (by decide))⟩

/-- Claim C10 (counterexample): a cycle over zero upstream vouchers
completes without error and computes (and logs) the counts
`billsSynced = 0`, `receiptsSynced = 0`, `mappedCount = 0`, but `runETL`
resolves with no value at all — it does not return the statistics
object. -/
theorem runcycle_stats_cex :
    runETL true [] [] emptyDB 7 =
      { db := emptyDB, billsSynced := 0, receiptsSynced := 0
        mappedCount := 0, failed := false, retValue := none } ∧
    (runETL true [] [] emptyDB 7).retValue ≠
      some { billsSynced := 0, receiptsSynced := 0, mappedCount := 0 } :=
  ⟨by decide, by decide⟩

/-- Claim C10 (amended): a sync cycle against a source yielding zero bill
and zero receipt vouchers (over a store with no unmapped receipts)
completes without error with all three computed counts zero; the entry
point returns no statistics object — the counts are only logged. -/
theorem runcycle_zero_records (db : DB) (t : Nat)
    (h : db.receipts.filter unmappedPred = []) :
    runETL true [] [] db t =
      { db := db, billsSynced := 0, receiptsSynced := 0, mappedCount := 0
        failed := false, retValue := none } := by
  unfold runETL syncBills syncReceipts autoMapReceipts
  simp [upsertAll, h, sortAsc]

/-- Witness for the amended C10 on the empty store. -/
theorem runcycle_zero_records_witness :
    runETL true [] [] emptyDB 3 =
      { db := emptyDB, billsSynced := 0, receiptsSynced := 0
        mappedCount := 0, failed := false, retValue := none } :=
  runcycle_zero_records emptyDB 3 (by decide)
